import Mathlib

/-!
Shallow embedding of the leibniz file-cataloging program (leibniz.go).

The program walks a directory tree breadth-first, filters paths with
exclusion and inclusion regex sets, fingerprints qualifying regular files
with a size-adaptive hash (full content below a 512 KiB threshold, three
1024-byte sample windows at or above it), and records (root, hash, path,
mtime) tuples in a catalog.

Modelling conventions:
- Bytes are Nat values; byte sequences are List Nat.
- The external 64-bit streaming hash (xxhash64) is abstracted as a
  parameter H : List Nat -> Nat applied to the sequence of bytes written
  to the hasher; Sum64 of a hasher that consumed stream s is H s.
- int64 values (sizes, offsets) are Int; uint64 conversion is reduction
  mod 2^64.
- A file handle is its content plus a device-error oracle giving, per
  read offset, an optional non-EOF I/O error (such as EIO); this models
  the possible outcomes of the pread calls behind os.File.ReadAt and
  io.Copy.
- The filesystem is a finite snapshot: tables for os.Stat, directory
  listings (os.Open + Readdir), and file opens (os.Open).
- Compiled regex matchers are abstracted as Bool-valued predicates on
  path strings; RegexFlag.Match mirrors the any-pattern loop of the Go
  method.
- The SQL catalog is a list of records plus an insert-failure oracle;
  EnsureRootId is the get-or-insert on the roots table.
- Go path.Join on already clean inputs with separator-free base names is
  string concatenation with a "/" separator, with the special cases for
  empty strings and the root directory.
-/

deriving instance DecidableEq for Except

/-- Little-endian serialization of the low 8 bytes of a value, as written
by binary.Write with binary.LittleEndian for a uint64. -/
def le64 (x : Nat) : List Nat :=
  (List.range 8).map (fun i => x / 256 ^ i % 256)

/-- Go conversion uint64(z) for an int64 value z: two-complement wrap. -/
def intToUInt64 (z : Int) : Nat :=
  (z % ((2 : Int) ^ 64)).toNat

/-- Result of a single Go read call: end of stream, or a device error. -/
inductive ReadErr where
  | eof : ReadErr
  | other : String → ReadErr
deriving DecidableEq

/-- An open file handle: its byte content together with a device-error
oracle. ioErr off = some m means a read starting at offset off fails with
the non-EOF error m (for example an EIO from a bad block); none means the
read is served from content. -/
structure GoFile where
  content : List Nat
  ioErr : Int → Option String

/-- os.File.ReadAt(buf, off) with len(buf) = n, on the model file: a
negative offset fails with EINVAL, a device error at off fails with that
error, otherwise the available bytes are copied and, when fewer than n
bytes remain, the rest of the make-initialized buffer stays zero and the
error is io.EOF. The returned list is the final buffer content, which the
Go code writes to the hasher regardless of the error. -/
def readAt (f : GoFile) (off : Int) (n : Nat) : List Nat × Option ReadErr :=
  if off < 0 then (List.replicate n 0, some (ReadErr.other "invalid argument"))
  else
    match f.ioErr off with
    | some m => (List.replicate n 0, some (ReadErr.other m))
    | none =>
      let avail := (f.content.drop off.toNat).take n
      if avail.length < n then
        (avail ++ List.replicate (n - avail.length) 0, some ReadErr.eof)
      else (avail, none)

/-- Error produced by io.Copy(xx, file) in fullHash: the device error at
the first failing offset within the content, if any. -/
def copyErr (f : GoFile) : Option String :=
  ((List.range f.content.length).find? (fun o => (f.ioErr o).isSome)).bind
    (fun o => f.ioErr o)

/-- fullHash (leibniz.go lines 272 to 286): stream the whole content
through the hasher, then serialize digest and size as two little-endian
uint64 values (16 bytes). -/
def fullHash (H : List Nat → Nat) (f : GoFile) (size : Int) :
    Except String (List Nat) :=
  match copyErr f with
  | some m => Except.error m
  | none => Except.ok (le64 (H f.content) ++ le64 (intToUInt64 size))

/-- Message carried by the error value the sample loop ends with; the Go
code returns err itself after the loop. -/
def readErrMsg : Option ReadErr → String
  | some (ReadErr.other m) => m
  | _ => ""

/-- The for loop of sampleHash: i is the running index, total the number
of offsets, written the byte stream fed to the hasher so far. The err
variable is shared across iterations exactly as in the Go code: each
iteration overwrites it with the error of its own ReadAt, the mid-loop
check returns only on EOF before the last window, and the buffer is
written to the hasher even when the read failed. -/
def sampleLoop (f : GoFile) (total : Nat) :
    Nat → List Int → List Nat → Option ReadErr →
    Except String (List Nat × Option ReadErr)
  | _, [], written, err => Except.ok (written, err)
  | i, off :: rest, written, _ =>
    let r := readAt f off 1024
    if r.2 = some ReadErr.eof ∧ i < total - 1 then
      Except.error "Unexpected EOF!"
    else sampleLoop f total (i + 1) rest (written ++ r.1) r.2

/-- sampleHash (leibniz.go lines 291 to 321): read 1024-byte windows at
offsets 0, size/2 (Go int64 division truncates toward zero) and
size-1024, feed them to the hasher in that order, fail if the err
variable left by the loop is a non-EOF error, then serialize digest and
size as in fullHash. -/
def sampleHash (H : List Nat → Nat) (f : GoFile) (size : Int) :
    Except String (List Nat) :=
  let offsets : List Int := [0, Int.tdiv size 2, size - 1024]
  match sampleLoop f offsets.length 0 offsets [] none with
  | Except.error e => Except.error e
  | Except.ok (written, err) =>
    if err ≠ none ∧ err ≠ some ReadErr.eof then Except.error (readErrMsg err)
    else Except.ok (le64 (H written) ++ le64 (intToUInt64 size))

/-- Metadata of a directory entry, as os.FileInfo exposes it. -/
structure FileInfo where
  name : String
  size : Int
  isDir : Bool
  isRegular : Bool
  mtime : Int
deriving DecidableEq

/-- SmartHash (leibniz.go lines 323 to 341): full strategy strictly below
the threshold, sampled strategy at or above it, then one more hash of the
16 serialized bytes. -/
def SmartHash (H : List Nat → Nat) (f : GoFile) (info : FileInfo)
    (threshold : Int) : Except String Nat :=
  match (if info.size < threshold then fullHash H f info.size
         else sampleHash H f info.size) with
  | Except.error e => Except.error e
  | Except.ok xxSum => Except.ok (H xxSum)

/-- A set of compiled patterns, with the regex engine abstracted: each
matcher answers whether its pattern matches somewhere in the string. -/
abbrev RegexFlag := List (String → Bool)

/-- RegexFlag.Match (leibniz.go lines 57 to 65): true iff some pattern of
the set matches the string. -/
def RegexFlag.Match (e : RegexFlag) (s : String) : Bool :=
  e.any (fun re => re s)

/-- Outcome of os.Open on a file: Go distinguishes a PathError whose
cause reads "permission denied", any other PathError, and (defensively)
an error that is not a PathError. -/
inductive OpenErr where
  | permDenied : OpenErr
  | pathErr : String → OpenErr
  | notPathErr : String → OpenErr

/-- Snapshot of the filesystem: association tables for the three OS calls
the walker makes. Paths absent from a table yield the usual error. -/
structure Fs where
  stats : List (String × Except String FileInfo)
  dirs : List (String × Except String (List FileInfo))
  opens : List (String × Except OpenErr GoFile)

/-- os.Stat on the model filesystem. -/
def Fs.stat (fs : Fs) (p : String) : Except String FileInfo :=
  (fs.stats.lookup p).getD
    (Except.error ("stat " ++ p ++ ": no such file or directory"))

/-- os.Open of a directory followed by Readdir(0). -/
def Fs.readDir (fs : Fs) (p : String) : Except String (List FileInfo) :=
  (fs.dirs.lookup p).getD
    (Except.error ("open " ++ p ++ ": no such file or directory"))

/-- os.Open of a file for hashing. -/
def Fs.openFile (fs : Fs) (p : String) : Except OpenErr GoFile :=
  (fs.opens.lookup p).getD
    (Except.error (OpenErr.pathErr ("open " ++ p ++ ": no such file or directory")))

/-- Go path.Join restricted to the shapes the walker builds: both parts
already clean and the second a separator-free name. -/
def pathJoin (a b : String) : String :=
  if a = "" then b
  else if b = "" then a
  else if a = "/" then "/" ++ b
  else a ++ "/" ++ b

/-- Go path.Dir on a clean path, used once to seed the walk queue:
everything before the last separator, a lone "/" when the last separator
is the leading one, "." when there is no separator. -/
def pathDir (p : String) : String :=
  match p.data.reverse.dropWhile (fun c => c ≠ '/') with
  | [] => "."
  | ['/'] => "/"
  | _ :: t => String.mk t.reverse

/-- WalkerContext (leibniz.go lines 194 to 197): an entry paired with the
directory it was discovered in. -/
structure WalkerContext where
  Info : FileInfo
  Context : String

/-- Full path of a queued item, as recomputed at the top of each loop
iteration: path.Join(cur.Context, cur.Info.Name()). -/
def pathOf (it : WalkerContext) : String :=
  pathJoin it.Context it.Info.name

/-- A row of the files table: root id, hash value (stored as a hex string
by the Go code; the value itself is kept here), absolute path, mtime. -/
structure CatalogRecord where
  rootId : Int
  hash : Nat
  path : String
  mtime : Int
deriving DecidableEq

/-- The catalog store: the roots table, the files table in insertion
order, and an oracle saying whether the SQL insert of a given record
fails (for example with a locked database). -/
structure Catalog where
  roots : List String
  records : List CatalogRecord
  insertErr : CatalogRecord → Option String

/-- Catalog.EnsureRootId (leibniz.go lines 134 to 152): get-or-insert on
the roots table; ids are one-based insertion positions. -/
def EnsureRootId (cat : Catalog) (root : String) : Catalog × Int :=
  match cat.roots.indexOf? root with
  | some i => (cat, (i : Int) + 1)
  | none => ({ cat with roots := cat.roots ++ [root] },
             (cat.roots.length : Int) + 1)

/-- Catalog.CatalogHash (leibniz.go lines 154 to 162): append-only insert
into the files table; on an SQL error the row is not stored and the error
is returned to the caller. -/
def CatalogHash (cat : Catalog) (rootId : Int) (hash : Nat) (path : String)
    (mtime : Int) : Catalog × Except String Int :=
  let row : CatalogRecord := ⟨rootId, hash, path, mtime⟩
  match cat.insertErr row with
  | some e => (cat, Except.error e)
  | none => ({ cat with records := cat.records ++ [row] },
             Except.ok ((cat.records.length : Int) + 1))

/-- Catalog.HashAndCatalog (leibniz.go lines 164 to 192). Returns the
updated catalog, the list of file paths opened for hashing (the
observable os.Open calls; empty or a singleton), and the error result.
A permission-denied open is swallowed after printing; other open errors
and fingerprint errors are returned, the latter prefixed with the path.
The error value of CatalogHash is discarded, exactly as in the source. -/
def HashAndCatalog (H : List Nat → Nat) (fs : Fs) (cat : Catalog)
    (rootId : Int) (walked : WalkerContext) :
    Catalog × List String × Except String Unit :=
  let realpath := pathJoin walked.Context walked.Info.name
  match fs.openFile realpath with
  | Except.error OpenErr.permDenied => (cat, [], Except.ok ())
  | Except.error (OpenErr.notPathErr _) =>
      (cat, [], Except.error "not a PathError!")
  | Except.error (OpenErr.pathErr m) => (cat, [], Except.error m)
  | Except.ok file =>
    match SmartHash H file walked.Info (512 * 1024) with
    | Except.error e =>
        (cat, [realpath], Except.error (realpath ++ ": " ++ e))
    | Except.ok h =>
      let c2 := (CatalogHash cat rootId h realpath walked.Info.mtime).1
      (c2, [realpath], Except.ok ())

/-- The non-recursive walk loop of Catalog.Run (leibniz.go lines 216 to
267), with an explicit fuel argument bounding the number of iterations
(the Go loop would run forever on a cyclic filesystem; on finite trees
any sufficiently large fuel is never exhausted). Directories are listed
and their children enqueued at the back unless the exclusion set matches
the full child path; non-regular entries are skipped; a regular file is
skipped when a non-empty inclusion set fails to match; otherwise it is
hashed and cataloged, and any error returned by HashAndCatalog aborts
the whole loop. The second component accumulates the opened file
paths. -/
def runLoop (H : List Nat → Nat) (fs : Fs) (excludes includes : RegexFlag)
    (rootId : Int) :
    Nat → Catalog → List String → List WalkerContext →
    Catalog × List String × Except String Unit
  | 0, cat, opened, _ => (cat, opened, Except.error "walk out of fuel")
  | Nat.succ fuel, cat, opened, q =>
    match q with
    | [] => (cat, opened, Except.ok ())
    | cur :: rest =>
      let context := pathJoin cur.Context cur.Info.name
      if cur.Info.isDir then
        match fs.readDir context with
        | Except.error e => (cat, opened, Except.error e)
        | Except.ok infos =>
          runLoop H fs excludes includes rootId fuel cat opened
            (rest ++ (infos.filter
              (fun info => !(excludes.Match (pathJoin context info.name)))).map
              (fun info => ⟨info, context⟩))
      else if !cur.Info.isRegular then
        runLoop H fs excludes includes rootId fuel cat opened rest
      else if includes.length > 0 && !(includes.Match context) then
        runLoop H fs excludes includes rootId fuel cat opened rest
      else
        match HashAndCatalog H fs cat rootId cur with
        | (cat2, ops, Except.error e) =>
            (cat2, opened ++ ops, Except.error e)
        | (cat2, ops, Except.ok _) =>
            runLoop H fs excludes includes rootId fuel cat2 (opened ++ ops) rest

/-- Catalog.Run (leibniz.go lines 199 to 270): stat the root, require a
directory, ensure a root id, then walk from the root seeded with its
parent directory as context. -/
def Run (H : List Nat → Nat) (fs : Fs) (excludes includes : RegexFlag)
    (root : String) (fuel : Nat) (cat : Catalog) :
    Catalog × List String × Except String Unit :=
  match fs.stat root with
  | Except.error e => (cat, [], Except.error e)
  | Except.ok rootInfo =>
    if !rootInfo.isDir then
      (cat, [], Except.error ("Root (" ++ root ++ ") is not a directory."))
    else
      let er := EnsureRootId cat root
      runLoop H fs excludes includes er.2 fuel er.1 []
        [⟨rootInfo, pathDir root⟩]

/-- The three sample windows of the sampled strategy for declared size
sz: byte indices below 1024, from sz/2, and from sz-1024. -/
def inWindows (sz : Int) (i : Nat) : Prop :=
  i < 1024 ∨
  ((Int.tdiv sz 2).toNat ≤ i ∧ i < (Int.tdiv sz 2).toNat + 1024) ∨
  ((sz - 1024).toNat ≤ i ∧ i < (sz - 1024).toNat + 1024)

instance (sz : Int) (i : Nat) : Decidable (inWindows sz i) := by
  unfold inWindows; infer_instance

/-- p lies strictly below directory d: its path extends d across a
separator. -/
def strictlyUnder (d p : String) : Prop :=
  ∃ suf, p.data = d.data ++ '/' :: suf

/-- p is d itself or lies strictly below it. -/
def underEq (d p : String) : Prop :=
  p = d ∨ strictlyUnder d p

/-- A base name as returned by Readdir: nonempty, separator-free, and
not one of the two special entries (which Readdir never reports). -/
def validNameB (n : String) : Bool :=
  (!(n == "")) && n.data.all (fun c => !(c == '/')) &&
  (!(n == ".")) && (!(n == ".."))

/-- All names of one directory listing are valid. -/
def dirListOk : Except String (List FileInfo) → Bool
  | Except.ok infos => infos.all (fun i => validNameB i.name)
  | Except.error _ => true

/-- Every directory listing of the snapshot reports valid base names,
as a real Readdir does. -/
def Fs.wfNames (fs : Fs) : Bool :=
  fs.dirs.all (fun e => dirListOk e.2)

/-! Concrete fixtures used by the closed witness and counterexample
theorems below. -/

/-- A concrete stand-in for the abstract 64-bit streaming hash. -/
def Hx : List Nat → Nat :=
  fun l => l.foldl (fun a b => (a * 131 + b + 1) % (2 ^ 64)) 0

/-- A device-error oracle that never fails. -/
def noErr : Int → Option String := fun _ => none

def rootInfo0 : FileInfo := ⟨"r", 0, true, false, 0⟩

def infoA : FileInfo := ⟨"a.txt", 3, false, true, 11⟩

def infoSkip : FileInfo := ⟨"skip", 0, true, false, 12⟩

def infoD : FileInfo := ⟨"d", 0, true, false, 13⟩

def infoB : FileInfo := ⟨"b.txt", 3, false, true, 14⟩

/-- A small filesystem: root /r holding file a.txt, directory skip, and
directory d holding b.txt. -/
def fs0 : Fs :=
  { stats := [("/r", Except.ok rootInfo0)]
    dirs := [("/r", Except.ok [infoA, infoSkip, infoD]),
             ("/r/d", Except.ok [infoB])]
    opens := [("/r/a.txt", Except.ok ⟨[1, 2, 3], noErr⟩),
              ("/r/d/b.txt", Except.ok ⟨[4, 5, 6], noErr⟩)] }

/-- Exclusion set matching exactly /r/skip. -/
def excl0 : RegexFlag := [fun s => s == "/r/skip"]

/-- Exclusion set matching exactly the root /r. -/
def exclR : RegexFlag := [fun s => s == "/r"]

/-- Inclusion set matching exactly /r/a.txt. -/
def incl0 : RegexFlag := [fun s => s == "/r/a.txt"]

/-- Inclusion set matching nothing in fs0. -/
def inclN : RegexFlag := [fun s => s == "/zzz"]

/-- An empty catalog whose inserts always succeed. -/
def cat0 : Catalog := ⟨[], [], fun _ => none⟩

/-- An empty catalog whose inserts always fail. -/
def catW : Catalog := ⟨[], [], fun _ => some "database is locked"⟩

/-- A 2048-byte file whose device fails any read starting at offset 0
with a non-EOF I/O error. -/
def fc : GoFile := ⟨List.replicate 2048 7, fun o => if o = 0 then some "input/output error" else none⟩

/-- A file whose content is only 500 bytes. -/
def fT : GoFile := ⟨List.replicate 500 7, noErr⟩

/-- Metadata declaring a size of exactly 512 KiB. -/
def infoBig : FileInfo := ⟨"big.bin", 524288, false, true, 0⟩

/-- 1030 bytes of value 5. -/
def cw1 : List Nat := List.replicate 1030 5

/-- Same as cw1 except at index 1025, outside every sample window. -/
def cw2 : List Nat := List.replicate 1025 5 ++ 9 :: List.replicate 4 5

def fW : GoFile := ⟨[1, 2, 3], noErr⟩

def infoW : FileInfo := ⟨"a.txt", 3, false, true, 11⟩

/-- The a.txt entry of fs0 as a queued walk item. -/
def curA : WalkerContext := ⟨infoA, "/r"⟩

def infoP : FileInfo := ⟨"p.txt", 5, false, true, 21⟩

/-- A walk item whose open is denied. -/
def curP : WalkerContext := ⟨infoP, "/r"⟩

/-- Filesystem where /r/p.txt exists but opening it is denied. -/
def fsP : Fs :=
  { stats := [("/r", Except.ok rootInfo0)]
    dirs := [("/r", Except.ok [infoP, infoA])]
    opens := [("/r/p.txt", Except.error OpenErr.permDenied),
              ("/r/a.txt", Except.ok ⟨[1, 2, 3], noErr⟩)] }

/-- The truncated big file as a walk item discovered in /r. -/
def curT : WalkerContext := ⟨infoBig, "/r"⟩

/-- Filesystem holding the truncated big file. -/
def fsT : Fs :=
  { stats := [("/r", Except.ok rootInfo0)]
    dirs := [("/r", Except.ok [infoBig])]
    opens := [("/r/big.bin", Except.ok fT)] }

/-! Helper lemmas about reads. -/

theorem list_drop_take_congr (l1 l2 : List Nat) (a n : Nat)
    (h : ∀ i, a ≤ i → i < a + n → l1[i]? = l2[i]?) :
    (l1.drop a).take n = (l2.drop a).take n := by
  apply List.ext_getElem?
  intro j
  rw [List.getElem?_take, List.getElem?_take]
  by_cases hj : j < n
  · rw [if_pos hj, if_pos hj, List.getElem?_drop, List.getElem?_drop]
    exact h (a + j) (Nat.le_add_right _ _) (by omega)
  · rw [if_neg hj, if_neg hj]

theorem readAt_congr (f1 f2 : GoFile) (off : Int) (hoff : 0 ≤ off)
    (h1 : f1.ioErr off = none) (h2 : f2.ioErr off = none)
    (h : ∀ i, off.toNat ≤ i → i < off.toNat + 1024 →
        f1.content[i]? = f2.content[i]?) :
    readAt f1 off 1024 = readAt f2 off 1024 := by
  have havail : (f1.content.drop off.toNat).take 1024 =
      (f2.content.drop off.toNat).take 1024 :=
    list_drop_take_congr _ _ _ _ h
  unfold readAt
  rw [if_neg (by omega : ¬ off < 0), if_neg (by omega : ¬ off < 0)]
  simp only [h1, h2, havail]

theorem copyErr_clean (f : GoFile) (hcl : ∀ o, f.ioErr o = none) :
    copyErr f = none := by
  have hfind : (List.range f.content.length).find?
      (fun o => (f.ioErr o).isSome) = none :=
    List.find?_eq_none.mpr (fun x _ => by simp [hcl])
  unfold copyErr
  rw [hfind]
  rfl

/-- C2. For a file whose declared size is strictly below the 512 KiB
threshold, SmartHash equals the hash of the 16-byte pre-image formed by
the little-endian 64-bit digest of the whole content followed by the
little-endian declared size; in particular the fingerprint is a function
of content and size only, so identical content re-hashes identically. -/
theorem smartHash_small_formula
    (H : List Nat → Nat) (f : GoFile) (info : FileInfo)
    (hclean : ∀ o, f.ioErr o = none)
    (hsize : info.size < 512 * 1024) :
    SmartHash H f info (512 * 1024) =
      Except.ok (H (le64 (H f.content) ++ le64 (intToUInt64 info.size))) := by
  unfold SmartHash fullHash
  rw [if_pos hsize, copyErr_clean f hclean]

theorem smartHash_small_formula_witness :
    infoW.size < 512 * 1024 ∧
    SmartHash Hx fW infoW (512 * 1024) =
      Except.ok (Hx (le64 (Hx [1, 2, 3]) ++ le64 (intToUInt64 3))) :=
  ⟨by decide, smartHash_small_formula Hx fW infoW (fun _ => rfl) (by decide)⟩

/-- C1. For a file whose declared size is at least the 512 KiB threshold,
the SmartHash fingerprint depends only on the three 1024-byte windows at
offsets 0, size/2 and size-1024 together with the declared size: two
error-free files of equal length that agree on every byte index lying in
one of the windows receive the same fingerprint, so changing bytes
outside the windows leaves the fingerprint unchanged. -/
theorem smartHash_sampled_window_invariance
    (H : List Nat → Nat) (f1 f2 : GoFile) (info : FileInfo)
    (h1 : ∀ o, f1.ioErr o = none) (h2 : ∀ o, f2.ioErr o = none)
    (hthr : (512 * 1024 : Int) ≤ info.size)
    (hlen : f1.content.length = f2.content.length)
    (hwin : ∀ i : Nat, i < f1.content.length → inWindows info.size i →
        f1.content[i]? = f2.content[i]?) :
    SmartHash H f1 info (512 * 1024) = SmartHash H f2 info (512 * 1024) := by
  have hwin' : ∀ i : Nat, inWindows info.size i →
      f1.content[i]? = f2.content[i]? := by
    intro i hw
    by_cases hi : i < f1.content.length
    · exact hwin i hi hw
    · rw [List.getElem?_eq_none (by omega), List.getElem?_eq_none (by omega)]
  have e0 : readAt f1 0 1024 = readAt f2 0 1024 := by
    apply readAt_congr _ _ _ (by omega) (h1 0) (h2 0)
    intro i _ hi2
    have h0 : ((0 : Int)).toNat = 0 := rfl
    exact hwin' i (Or.inl (by omega))
  have hm : (0 : Int) ≤ Int.tdiv info.size 2 :=
    Int.tdiv_nonneg (by omega) (by omega)
  have e1 : readAt f1 (Int.tdiv info.size 2) 1024 =
      readAt f2 (Int.tdiv info.size 2) 1024 := by
    apply readAt_congr _ _ _ hm (h1 _) (h2 _)
    intro i hi1 hi2
    exact hwin' i (Or.inr (Or.inl ⟨hi1, hi2⟩))
  have e2 : readAt f1 (info.size - 1024) 1024 =
      readAt f2 (info.size - 1024) 1024 := by
    apply readAt_congr _ _ _ (by omega) (h1 _) (h2 _)
    intro i hi1 hi2
    exact hwin' i (Or.inr (Or.inr ⟨hi1, hi2⟩))
  have hs : sampleHash H f1 info.size = sampleHash H f2 info.size := by
    unfold sampleHash
    simp only [sampleLoop, e0, e1, e2]
  unfold SmartHash
  rw [if_neg (by omega : ¬ info.size < 512 * 1024),
      if_neg (by omega : ¬ info.size < 512 * 1024), hs]

set_option maxRecDepth 20000 in
theorem smartHash_sampled_window_invariance_witness :
    cw1 ≠ cw2 ∧
    SmartHash Hx ⟨cw1, noErr⟩ infoBig (512 * 1024) =
      SmartHash Hx ⟨cw2, noErr⟩ infoBig (512 * 1024) :=
  ⟨by decide,
   smartHash_sampled_window_invariance Hx ⟨cw1, noErr⟩ ⟨cw2, noErr⟩ infoBig
     (fun _ => rfl) (fun _ => rfl) (by decide) (by decide)
     (by
       intro i hi hw
       have hlen : (GoFile.mk cw1 noErr).content.length = 1030 := by decide
       rw [hlen] at hi
       have hm : (Int.tdiv infoBig.size 2).toNat = 262144 := by decide
       have he : (infoBig.size - 1024).toNat = 523264 := by decide
       have hi4 : i < 1024 := by
         rcases hw with h | h | h
         · exact h
         · rw [hm] at h; omega
         · rw [he] at h; omega
       show cw1[i]? = cw2[i]?
       rw [show cw1 = List.replicate 1030 5 from rfl,
           List.getElem?_replicate, if_pos (by omega)]
       rw [show cw2 = List.replicate 1025 5 ++ 9 :: List.replicate 4 5 from rfl,
           List.getElem?_append, List.length_replicate, if_pos (by omega),
           List.getElem?_replicate, if_pos (by omega)])⟩

set_option maxRecDepth 20000 in
/-- C3. Evaluation of sampleHash at a file whose device fails the read of
the first window with a non-EOF error while the other two windows read
fine: the error is overwritten by the later iterations of the loop and a
fingerprint is returned instead of an error. -/
theorem sampleHash_first_window_error_not_surfaced :
    fc.ioErr 0 = some "input/output error" ∧
    (sampleHash Hx fc 2048).isOk = true :=
  ⟨rfl, by decide⟩

theorem readAt_clean_eof (f : GoFile) (off : Int) (hoff : 0 ≤ off)
    (hcl : f.ioErr off = none)
    (hshort : f.content.length < off.toNat + 1024) :
    readAt f off 1024 =
      ((f.content.drop off.toNat).take 1024 ++
         List.replicate (1024 - ((f.content.drop off.toNat).take 1024).length) 0,
       some ReadErr.eof) := by
  have hlt : ((f.content.drop off.toNat).take 1024).length < 1024 := by
    rw [List.length_take, List.length_drop]; omega
  unfold readAt
  rw [if_neg (by omega : ¬ off < 0)]
  simp only [hcl, if_pos hlt]

theorem readAt_clean_full (f : GoFile) (off : Int) (hoff : 0 ≤ off)
    (hcl : f.ioErr off = none)
    (hfull : off.toNat + 1024 ≤ f.content.length) :
    readAt f off 1024 = ((f.content.drop off.toNat).take 1024, none) := by
  have hge : ¬ ((f.content.drop off.toNat).take 1024).length < 1024 := by
    rw [List.length_take, List.length_drop]; omega
  unfold readAt
  rw [if_neg (by omega : ¬ off < 0)]
  simp only [hcl, if_neg hge]

theorem readAt_clean_snd (f : GoFile) (off : Int) (hoff : 0 ≤ off)
    (hcl : f.ioErr off = none) :
    (readAt f off 1024).2 = none ∨ (readAt f off 1024).2 = some ReadErr.eof := by
  by_cases h : f.content.length < off.toNat + 1024
  · right; rw [readAt_clean_eof f off hoff hcl h]
  · left; rw [readAt_clean_full f off hoff hcl (by omega)]

theorem sampleHash_eof_first (H : List Nat → Nat) (f : GoFile) (sz : Int)
    (hcl : f.ioErr 0 = none) (hL : f.content.length < 1024) :
    sampleHash H f sz = Except.error "Unexpected EOF!" := by
  have h0 : (readAt f 0 1024).2 = some ReadErr.eof := by
    rw [readAt_clean_eof f 0 (by omega) hcl (by omega)]
  simp [sampleHash, sampleLoop, h0]

theorem sampleHash_eof_second (H : List Nat → Nat) (f : GoFile) (sz : Int)
    (hcl : ∀ o, f.ioErr o = none) (hsz : (512 * 1024 : Int) ≤ sz)
    (hL1 : 1024 ≤ f.content.length)
    (hL2 : (f.content.length : Int) < Int.tdiv sz 2 + 1024) :
    sampleHash H f sz = Except.error "Unexpected EOF!" := by
  have hm : (0 : Int) ≤ Int.tdiv sz 2 := Int.tdiv_nonneg (by omega) (by omega)
  have h0 : (readAt f 0 1024).2 = none := by
    rw [readAt_clean_full f 0 (by omega) (hcl 0) (by omega)]
  have h1 : (readAt f (Int.tdiv sz 2) 1024).2 = some ReadErr.eof := by
    rw [readAt_clean_eof f _ hm (hcl _) (by omega)]
  simp [sampleHash, sampleLoop, h0, h1]

theorem sampleHash_ok_tail (H : List Nat → Nat) (f : GoFile) (sz : Int)
    (hcl : ∀ o, f.ioErr o = none) (hsz : (512 * 1024 : Int) ≤ sz)
    (hL : Int.tdiv sz 2 + 1024 ≤ (f.content.length : Int)) :
    (sampleHash H f sz).isOk = true := by
  have hm : (0 : Int) ≤ Int.tdiv sz 2 := Int.tdiv_nonneg (by omega) (by omega)
  have h0 : (readAt f 0 1024).2 = none := by
    rw [readAt_clean_full f 0 (by omega) (hcl 0) (by omega)]
  have h1 : (readAt f (Int.tdiv sz 2) 1024).2 = none := by
    rw [readAt_clean_full f _ hm (hcl _) (by omega)]
  rcases readAt_clean_snd f (sz - 1024) (by omega) (hcl _) with h2 | h2 <;>
    simp [sampleHash, sampleLoop, h0, h1, h2, Except.isOk, Except.toBool]

theorem runLoop_hash_error_aborts
    (H : List Nat → Nat) (fs : Fs) (excl incl : RegexFlag) (rootId : Int)
    (fuel : Nat) (cat : Catalog) (opened : List String)
    (rest : List WalkerContext) (cur : WalkerContext) (f : GoFile) (e : String)
    (hdir : cur.Info.isDir = false) (hreg : cur.Info.isRegular = true)
    (hincl : incl = [] ∨ incl.Match (pathOf cur) = true)
    (hopen : fs.openFile (pathOf cur) = Except.ok f)
    (hsh : SmartHash H f cur.Info (512 * 1024) = Except.error e) :
    runLoop H fs excl incl rootId (fuel + 1) cat opened (cur :: rest) =
      (cat, opened ++ [pathOf cur], Except.error (pathOf cur ++ ": " ++ e)) := by
  unfold pathOf at hopen
  have hh : HashAndCatalog H fs cat rootId cur =
      (cat, [pathJoin cur.Context cur.Info.name],
       Except.error (pathJoin cur.Context cur.Info.name ++ ": " ++ e)) := by
    simp only [HashAndCatalog, hopen, hsh]
  rcases hincl with h | h
  · subst h
    simp [runLoop, hdir, hreg, hh, pathOf]
  · unfold pathOf at h
    simp [runLoop, hdir, hreg, h, hh, pathOf]

/-- C7. Sampled-strategy truncation policy for an error-free file at or
above the threshold: end of stream on the first window (content shorter
than 1024 bytes) or on the middle window (content ending before
size/2 + 1024) makes SmartHash fail with the fatal truncated-file error,
while end of stream on the final window only is tolerated and
fingerprinting completes; and any SmartHash error on a visited regular
file makes the walk loop abort immediately, returning the error with the
path attached. -/
theorem sampled_truncation_policy
    (H : List Nat → Nat) (f : GoFile) (info : FileInfo)
    (hclean : ∀ o, f.ioErr o = none)
    (hthr : (512 * 1024 : Int) ≤ info.size) :
    (f.content.length < 1024 →
       SmartHash H f info (512 * 1024) = Except.error "Unexpected EOF!") ∧
    (1024 ≤ f.content.length →
       (f.content.length : Int) < Int.tdiv info.size 2 + 1024 →
       SmartHash H f info (512 * 1024) = Except.error "Unexpected EOF!") ∧
    (Int.tdiv info.size 2 + 1024 ≤ (f.content.length : Int) →
       (SmartHash H f info (512 * 1024)).isOk = true) ∧
    (∀ (fs : Fs) (excl incl : RegexFlag) (rootId : Int) (fuel : Nat)
       (cat : Catalog) (opened : List String) (rest : List WalkerContext)
       (cur : WalkerContext) (e : String),
       cur.Info = info → cur.Info.isDir = false → cur.Info.isRegular = true →
       (incl = [] ∨ incl.Match (pathOf cur) = true) →
       fs.openFile (pathOf cur) = Except.ok f →
       SmartHash H f info (512 * 1024) = Except.error e →
       runLoop H fs excl incl rootId (fuel + 1) cat opened (cur :: rest) =
         (cat, opened ++ [pathOf cur],
          Except.error (pathOf cur ++ ": " ++ e))) := by
  refine ⟨?_, ?_, ?_, ?_⟩
  · intro hL
    have h := sampleHash_eof_first H f info.size (hclean 0) hL
    unfold SmartHash
    rw [if_neg (by omega : ¬ info.size < 512 * 1024), h]
  · intro hL1 hL2
    have h := sampleHash_eof_second H f info.size hclean hthr hL1 hL2
    unfold SmartHash
    rw [if_neg (by omega : ¬ info.size < 512 * 1024), h]
  · intro hL
    have h := sampleHash_ok_tail H f info.size hclean hthr hL
    obtain ⟨v, hv⟩ : ∃ v, sampleHash H f info.size = Except.ok v := by
      cases hs : sampleHash H f info.size
      · rw [hs] at h; exact absurd h (by simp [Except.isOk, Except.toBool])
      · exact ⟨_, rfl⟩
    unfold SmartHash
    rw [if_neg (by omega : ¬ info.size < 512 * 1024), hv]
    rfl
  · intro fs excl incl rootId fuel cat opened rest cur e hinfo hdir hreg hincl hopen hsh
    refine runLoop_hash_error_aborts H fs excl incl rootId fuel cat opened
      rest cur f e hdir hreg hincl hopen ?_
    rw [hinfo]
    exact hsh

set_option maxRecDepth 20000 in
theorem sampled_truncation_policy_witness :
    fT.content.length < 1024 ∧
    SmartHash Hx fT infoBig (512 * 1024) = Except.error "Unexpected EOF!" ∧
    runLoop Hx fsT [] [] 1 3 cat0 [] [curT] =
      (cat0, ["/r/big.bin"], Except.error "/r/big.bin: Unexpected EOF!") := by
  have hp := sampled_truncation_policy Hx fT infoBig (fun _ => rfl) (by decide)
  have h1 : SmartHash Hx fT infoBig (512 * 1024) =
      Except.error "Unexpected EOF!" := hp.1 (by decide)
  refine ⟨by decide, h1, ?_⟩
  have h2 := hp.2.2.2 fsT [] [] 1 2 cat0 [] [] curT "Unexpected EOF!"
    rfl rfl rfl (Or.inl rfl) rfl h1
  exact h2

/-- C6. A permission-denied open is non-fatal: HashAndCatalog swallows it
and returns without error, no record and no open is logged for that file,
and one loop step on such a file behaves exactly like the loop on the
remaining queue, so every later qualifying file is still processed. -/
theorem permission_denied_nonfatal
    (H : List Nat → Nat) (fs : Fs) (cat : Catalog) (rootId : Int)
    (cur : WalkerContext)
    (hopen : fs.openFile (pathOf cur) = Except.error OpenErr.permDenied) :
    HashAndCatalog H fs cat rootId cur = (cat, [], Except.ok ()) ∧
    (∀ (excl incl : RegexFlag) (fuel : Nat) (opened : List String)
       (rest : List WalkerContext),
       cur.Info.isDir = false → cur.Info.isRegular = true →
       (incl = [] ∨ incl.Match (pathOf cur) = true) →
       runLoop H fs excl incl rootId (fuel + 1) cat opened (cur :: rest) =
         runLoop H fs excl incl rootId fuel cat opened rest) := by
  unfold pathOf at hopen
  have hh : HashAndCatalog H fs cat rootId cur = (cat, [], Except.ok ()) := by
    simp only [HashAndCatalog, hopen]
  refine ⟨hh, ?_⟩
  intro excl incl fuel opened rest hdir hreg hincl
  rcases hincl with h | h
  · subst h
    simp [runLoop, hdir, hreg, hh]
  · unfold pathOf at h
    simp [runLoop, hdir, hreg, h, hh]

theorem permission_denied_nonfatal_witness :
    fsP.openFile (pathOf curP) = Except.error OpenErr.permDenied ∧
    HashAndCatalog Hx fsP cat0 1 curP = (cat0, [], Except.ok ()) ∧
    runLoop Hx fsP [] [] 1 4 cat0 [] [curP, curA] =
      runLoop Hx fsP [] [] 1 3 cat0 [] [curA] ∧
    (runLoop Hx fsP [] [] 1 4 cat0 [] [curP, curA]).1.records.map
      (fun r => r.path) = ["/r/a.txt"] := by
  have h := permission_denied_nonfatal Hx fsP cat0 1 curP rfl
  exact ⟨rfl, h.1, h.2 [] [] 3 [] [curA] rfl rfl (Or.inl rfl), by decide⟩

/-- C9. An error from the catalog insert is silently discarded: when the
open and the fingerprint both succeed but the insert fails, the catalog
is left unchanged, HashAndCatalog still returns without error, and the
walk loop step continues with the remaining queue. -/
theorem catalog_insert_error_ignored
    (H : List Nat → Nat) (fs : Fs) (cat : Catalog) (rootId : Int)
    (cur : WalkerContext) (f : GoFile) (h : Nat)
    (hopen : fs.openFile (pathOf cur) = Except.ok f)
    (hsh : SmartHash H f cur.Info (512 * 1024) = Except.ok h)
    (hins : cat.insertErr ⟨rootId, h, pathOf cur, cur.Info.mtime⟩ ≠ none) :
    HashAndCatalog H fs cat rootId cur = (cat, [pathOf cur], Except.ok ()) ∧
    (∀ (excl incl : RegexFlag) (fuel : Nat) (opened : List String)
       (rest : List WalkerContext),
       cur.Info.isDir = false → cur.Info.isRegular = true →
       (incl = [] ∨ incl.Match (pathOf cur) = true) →
       runLoop H fs excl incl rootId (fuel + 1) cat opened (cur :: rest) =
         runLoop H fs excl incl rootId fuel cat (opened ++ [pathOf cur]) rest) := by
  unfold pathOf at hopen hins
  obtain ⟨e, he⟩ := Option.ne_none_iff_exists'.mp hins
  have hh : HashAndCatalog H fs cat rootId cur =
      (cat, [pathJoin cur.Context cur.Info.name], Except.ok ()) := by
    simp only [HashAndCatalog, hopen, hsh, CatalogHash, he]
  refine ⟨hh, ?_⟩
  intro excl incl fuel opened rest hdir hreg hincl
  rcases hincl with hil | hil
  · subst hil
    simp [runLoop, hdir, hreg, hh, pathOf]
  · unfold pathOf at hil
    simp [runLoop, hdir, hreg, hil, hh, pathOf]

theorem catalog_insert_error_ignored_witness :
    catW.insertErr ⟨1, Hx (le64 (Hx [1, 2, 3]) ++ le64 (intToUInt64 3)),
      "/r/a.txt", 11⟩ = some "database is locked" ∧
    HashAndCatalog Hx fs0 catW 1 curA = (catW, ["/r/a.txt"], Except.ok ()) ∧
    runLoop Hx fs0 [] [] 1 4 catW [] [curA] =
      runLoop Hx fs0 [] [] 1 3 catW ["/r/a.txt"] [] := by
  have h := catalog_insert_error_ignored Hx fs0 catW 1 curA ⟨[1, 2, 3], noErr⟩
    (Hx (le64 (Hx [1, 2, 3]) ++ le64 (intToUInt64 3))) rfl rfl
    (fun hc => Option.noConfusion hc)
  exact ⟨rfl, h.1, h.2 [] [] 3 [] [] rfl rfl (Or.inl rfl)⟩

/-- C8. Inclusion policy at a popped queue item: with an empty inclusion
set every regular non-directory file goes to the hash-and-catalog branch;
with a non-empty inclusion set a regular file is hashed iff its full path
matches the set (skipped when it does not match, hashed when it does);
and for a directory the step expands children filtered by the exclusion
set alone, never consulting the inclusion set. -/
theorem runLoop_inclusion_policy
    (H : List Nat → Nat) (fs : Fs) (excl : RegexFlag) (rootId : Int)
    (fuel : Nat) (cat : Catalog) (opened : List String)
    (rest : List WalkerContext) (cur : WalkerContext) :
    (cur.Info.isDir = false → cur.Info.isRegular = true →
       runLoop H fs excl [] rootId (fuel + 1) cat opened (cur :: rest) =
         (match HashAndCatalog H fs cat rootId cur with
          | (cat2, ops, Except.error e) => (cat2, opened ++ ops, Except.error e)
          | (cat2, ops, Except.ok _) =>
              runLoop H fs excl [] rootId fuel cat2 (opened ++ ops) rest)) ∧
    (∀ incl : RegexFlag, incl ≠ [] → cur.Info.isDir = false →
       cur.Info.isRegular = true → incl.Match (pathOf cur) = false →
       runLoop H fs excl incl rootId (fuel + 1) cat opened (cur :: rest) =
         runLoop H fs excl incl rootId fuel cat opened rest) ∧
    (∀ incl : RegexFlag, cur.Info.isDir = false → cur.Info.isRegular = true →
       incl.Match (pathOf cur) = true →
       runLoop H fs excl incl rootId (fuel + 1) cat opened (cur :: rest) =
         (match HashAndCatalog H fs cat rootId cur with
          | (cat2, ops, Except.error e) => (cat2, opened ++ ops, Except.error e)
          | (cat2, ops, Except.ok _) =>
              runLoop H fs excl incl rootId fuel cat2 (opened ++ ops) rest)) ∧
    (∀ incl : RegexFlag, cur.Info.isDir = true →
       runLoop H fs excl incl rootId (fuel + 1) cat opened (cur :: rest) =
         (match fs.readDir (pathOf cur) with
          | Except.error e => (cat, opened, Except.error e)
          | Except.ok infos =>
              runLoop H fs excl incl rootId fuel cat opened
                (rest ++ (infos.filter (fun info =>
                    !(excl.Match (pathJoin (pathOf cur) info.name)))).map
                  (fun info => ⟨info, pathOf cur⟩)))) := by
  refine ⟨?_, ?_, ?_, ?_⟩
  · intro hdir hreg
    rcases hh : HashAndCatalog H fs cat rootId cur with ⟨cat2, ops, res⟩
    cases res with
    | error e => simp [runLoop, hdir, hreg, hh]
    | ok u => simp [runLoop, hdir, hreg, hh]
  · intro incl hne hdir hreg hML
    unfold pathOf at hML
    have hlen : 0 < incl.length := List.length_pos.mpr hne
    simp [runLoop, hdir, hreg, hML, decide_eq_true hlen]
  · intro incl hdir hreg hMT
    unfold pathOf at hMT
    rcases hh : HashAndCatalog H fs cat rootId cur with ⟨cat2, ops, res⟩
    cases res with
    | error e => simp [runLoop, hdir, hreg, hMT, hh]
    | ok u => simp [runLoop, hdir, hreg, hMT, hh]
  · intro incl hd
    rcases hr : fs.readDir (pathJoin cur.Context cur.Info.name) with e | infos
    · simp [runLoop, hd, pathOf, hr]
    · simp [runLoop, hd, pathOf, hr]

theorem runLoop_inclusion_policy_witness :
    inclN.Match (pathOf curA) = false ∧
    runLoop Hx fs0 [] inclN 1 4 cat0 [] [curA] =
      runLoop Hx fs0 [] inclN 1 3 cat0 [] [] ∧
    (runLoop Hx fs0 [] [] 1 2 cat0 [] [curA]).1.records.map
      (fun r => r.path) = ["/r/a.txt"] ∧
    (runLoop Hx fs0 [] inclN 1 2 cat0 [] [curA]).1.records = [] := by
  have h := (runLoop_inclusion_policy Hx fs0 [] 1 3 cat0 [] [] curA).2.1
    inclN (List.cons_ne_nil _ _) rfl rfl (by decide)
  exact ⟨by decide, h, by decide, by decide⟩

/-! Step lemmas for the walk loop, one per branch of the Go loop body. -/

theorem runLoop_step_dir_err
    (H : List Nat → Nat) (fs : Fs) (excl incl : RegexFlag) (rootId : Int)
    (fuel : Nat) (cat : Catalog) (opened : List String)
    (rest : List WalkerContext) (cur : WalkerContext) (e : String)
    (hdir : cur.Info.isDir = true)
    (hr : fs.readDir (pathJoin cur.Context cur.Info.name) = Except.error e) :
    runLoop H fs excl incl rootId (fuel + 1) cat opened (cur :: rest) =
      (cat, opened, Except.error e) := by
  simp [runLoop, hdir, hr]

theorem runLoop_step_dir_ok
    (H : List Nat → Nat) (fs : Fs) (excl incl : RegexFlag) (rootId : Int)
    (fuel : Nat) (cat : Catalog) (opened : List String)
    (rest : List WalkerContext) (cur : WalkerContext) (infos : List FileInfo)
    (hdir : cur.Info.isDir = true)
    (hr : fs.readDir (pathJoin cur.Context cur.Info.name) = Except.ok infos) :
    runLoop H fs excl incl rootId (fuel + 1) cat opened (cur :: rest) =
      runLoop H fs excl incl rootId fuel cat opened
        (rest ++ (infos.filter (fun info =>
            !(excl.Match (pathJoin (pathJoin cur.Context cur.Info.name)
              info.name)))).map
          (fun info => ⟨info, pathJoin cur.Context cur.Info.name⟩)) := by
  simp [runLoop, hdir, hr]

theorem runLoop_step_notreg
    (H : List Nat → Nat) (fs : Fs) (excl incl : RegexFlag) (rootId : Int)
    (fuel : Nat) (cat : Catalog) (opened : List String)
    (rest : List WalkerContext) (cur : WalkerContext)
    (hdir : cur.Info.isDir = false) (hreg : cur.Info.isRegular = false) :
    runLoop H fs excl incl rootId (fuel + 1) cat opened (cur :: rest) =
      runLoop H fs excl incl rootId fuel cat opened rest := by
  simp [runLoop, hdir, hreg]

theorem runLoop_step_skip
    (H : List Nat → Nat) (fs : Fs) (excl incl : RegexFlag) (rootId : Int)
    (fuel : Nat) (cat : Catalog) (opened : List String)
    (rest : List WalkerContext) (cur : WalkerContext)
    (hdir : cur.Info.isDir = false) (hreg : cur.Info.isRegular = true)
    (hskip : (incl.length > 0 &&
      !(incl.Match (pathJoin cur.Context cur.Info.name))) = true) :
    runLoop H fs excl incl rootId (fuel + 1) cat opened (cur :: rest) =
      runLoop H fs excl incl rootId fuel cat opened rest := by
  simp [runLoop, hdir, hreg, hskip]

theorem runLoop_step_hash_err
    (H : List Nat → Nat) (fs : Fs) (excl incl : RegexFlag) (rootId : Int)
    (fuel : Nat) (cat : Catalog) (opened : List String)
    (rest : List WalkerContext) (cur : WalkerContext)
    (cat2 : Catalog) (ops : List String) (e : String)
    (hdir : cur.Info.isDir = false) (hreg : cur.Info.isRegular = true)
    (hskip : (incl.length > 0 &&
      !(incl.Match (pathJoin cur.Context cur.Info.name))) = false)
    (hh : HashAndCatalog H fs cat rootId cur = (cat2, ops, Except.error e)) :
    runLoop H fs excl incl rootId (fuel + 1) cat opened (cur :: rest) =
      (cat2, opened ++ ops, Except.error e) := by
  simp [runLoop, hdir, hreg, hskip, hh]

theorem runLoop_step_hash_ok
    (H : List Nat → Nat) (fs : Fs) (excl incl : RegexFlag) (rootId : Int)
    (fuel : Nat) (cat : Catalog) (opened : List String)
    (rest : List WalkerContext) (cur : WalkerContext)
    (cat2 : Catalog) (ops : List String) (u : Unit)
    (hdir : cur.Info.isDir = false) (hreg : cur.Info.isRegular = true)
    (hskip : (incl.length > 0 &&
      !(incl.Match (pathJoin cur.Context cur.Info.name))) = false)
    (hh : HashAndCatalog H fs cat rootId cur = (cat2, ops, Except.ok u)) :
    runLoop H fs excl incl rootId (fuel + 1) cat opened (cur :: rest) =
      runLoop H fs excl incl rootId fuel cat2 (opened ++ ops) rest := by
  simp [runLoop, hdir, hreg, hskip, hh]

/-- HashAndCatalog only ever opens the path of its argument, and only
ever appends a record carrying that path. -/
theorem hashAndCatalog_spec (H : List Nat → Nat) (fs : Fs) (cat : Catalog)
    (rootId : Int) (cur : WalkerContext) :
    (∀ p ∈ (HashAndCatalog H fs cat rootId cur).2.1, p = pathOf cur) ∧
    (∀ r ∈ (HashAndCatalog H fs cat rootId cur).1.records,
        r ∈ cat.records ∨ r.path = pathOf cur) := by
  unfold HashAndCatalog CatalogHash pathOf
  rcases ho : fs.openFile (pathJoin cur.Context cur.Info.name) with oe | f
  · rcases oe with _ | m | m <;> simp only [ho] <;>
      exact ⟨fun p hp => absurd hp (List.not_mem_nil p),
             fun r hr => Or.inl hr⟩
  · simp only [ho]
    rcases hs : SmartHash H f cur.Info (512 * 1024) with e | hv
    · simp only [hs]
      refine ⟨?_, fun r hr => Or.inl hr⟩
      intro p hp
      rw [List.mem_singleton] at hp
      exact hp
    · simp only [hs]
      rcases hi : cat.insertErr
          ⟨rootId, hv, pathJoin cur.Context cur.Info.name, cur.Info.mtime⟩
        with _ | e2
      · simp only [hi]
        refine ⟨?_, ?_⟩
        · intro p hp
          rw [List.mem_singleton] at hp
          exact hp
        · intro r hr
          rcases List.mem_append.mp hr with h | h
          · exact Or.inl h
          · rw [List.mem_singleton] at h
            subst h
            exact Or.inr rfl
      · simp only [hi]
        refine ⟨?_, fun r hr => Or.inl hr⟩
        intro p hp
        rw [List.mem_singleton] at hp
        exact hp

/-- EnsureRootId leaves the files table untouched. -/
theorem ensureRootId_records (cat : Catalog) (root : String) :
    (EnsureRootId cat root).1.records = cat.records := by
  rcases h : cat.roots.indexOf? root with _ | i <;> simp [EnsureRootId, h]

/-- Walk-loop invariant for exclusion: if every queued item is a
directory or has a non-excluded path, then every path opened for hashing
and every appended record has a non-excluded path. -/
theorem runLoop_excl_inv
    (H : List Nat → Nat) (fs : Fs) (excl incl : RegexFlag) (rootId : Int) :
    ∀ (fuel : Nat) (q : List WalkerContext) (cat : Catalog)
      (opened : List String),
      (∀ it ∈ q, it.Info.isDir = true ∨ excl.Match (pathOf it) = false) →
      (∀ p ∈ (runLoop H fs excl incl rootId fuel cat opened q).2.1,
          p ∈ opened ∨ excl.Match p = false) ∧
      (∀ r ∈ (runLoop H fs excl incl rootId fuel cat opened q).1.records,
          r ∈ cat.records ∨ excl.Match r.path = false) := by
  intro fuel
  induction fuel with
  | zero =>
    intro q cat opened hq
    exact ⟨fun p hp => Or.inl hp, fun r hr => Or.inl hr⟩
  | succ fuel ih =>
    intro q cat opened hq
    cases q with
    | nil => exact ⟨fun p hp => Or.inl hp, fun r hr => Or.inl hr⟩
    | cons cur rest =>
      have hrest : ∀ it ∈ rest,
          it.Info.isDir = true ∨ excl.Match (pathOf it) = false :=
        fun it hit => hq it (List.mem_cons_of_mem _ hit)
      by_cases hdir : cur.Info.isDir = true
      · rcases hr : fs.readDir (pathJoin cur.Context cur.Info.name)
          with e | infos
        · rw [runLoop_step_dir_err H fs excl incl rootId fuel cat opened
            rest cur e hdir hr]
          exact ⟨fun p hp => Or.inl hp, fun r2 hr2 => Or.inl hr2⟩
        · rw [runLoop_step_dir_ok H fs excl incl rootId fuel cat opened
            rest cur infos hdir hr]
          apply ih
          intro it hit
          rcases List.mem_append.mp hit with h | h
          · exact hrest it h
          · rcases List.mem_map.mp h with ⟨info, hinfo, heq⟩
            have hf := (List.mem_filter.mp hinfo).2
            right
            rw [← heq]
            simpa [pathOf] using hf
      · have hdir' : cur.Info.isDir = false := by
          revert hdir; cases cur.Info.isDir <;> simp
        have hexcl : excl.Match (pathOf cur) = false := by
          rcases hq cur (List.mem_cons_self _ _) with h | h
          · exact absurd h hdir
          · exact h
        by_cases hreg : cur.Info.isRegular = true
        · by_cases hskip : (incl.length > 0 &&
              !(incl.Match (pathJoin cur.Context cur.Info.name))) = true
          · rw [runLoop_step_skip H fs excl incl rootId fuel cat opened
              rest cur hdir' hreg hskip]
            exact ih rest cat opened hrest
          · have hskip' : (incl.length > 0 &&
                !(incl.Match (pathJoin cur.Context cur.Info.name))) = false := by
              revert hskip
              cases incl.length > 0 &&
                !(incl.Match (pathJoin cur.Context cur.Info.name)) <;> simp
            have hspec := hashAndCatalog_spec H fs cat rootId cur
            rcases hh : HashAndCatalog H fs cat rootId cur with ⟨cat2, ops, res⟩
            rw [hh] at hspec
            cases res with
            | error e =>
              rw [runLoop_step_hash_err H fs excl incl rootId fuel cat opened
                rest cur cat2 ops e hdir' hreg hskip' hh]
              refine ⟨?_, ?_⟩
              · intro p hp
                rcases List.mem_append.mp hp with h | h
                · exact Or.inl h
                · right
                  rw [hspec.1 p h]
                  exact hexcl
              · intro r2 hr2
                rcases hspec.2 r2 hr2 with h | h
                · exact Or.inl h
                · right; rw [h]; exact hexcl
            | ok u =>
              rw [runLoop_step_hash_ok H fs excl incl rootId fuel cat opened
                rest cur cat2 ops u hdir' hreg hskip' hh]
              have := ih rest cat2 (opened ++ ops) hrest
              refine ⟨?_, ?_⟩
              · intro p hp
                rcases this.1 p hp with h | h
                · rcases List.mem_append.mp h with h2 | h2
                  · exact Or.inl h2
                  · right
                    rw [hspec.1 p h2]
                    exact hexcl
                · exact Or.inr h
              · intro r2 hr2
                rcases this.2 r2 hr2 with h | h
                · rcases hspec.2 r2 h with h2 | h2
                  · exact Or.inl h2
                  · right; rw [h2]; exact hexcl
                · exact Or.inr h
        · have hreg' : cur.Info.isRegular = false := by
            revert hreg; cases cur.Info.isRegular <;> simp
          rw [runLoop_step_notreg H fs excl incl rootId fuel cat opened
            rest cur hdir' hreg']
          exact ih rest cat opened hrest

/-- C4. Exclusion overrides inclusion unconditionally: whatever the
inclusion set, a full run never opens for hashing, and never records,
any path matched by the exclusion set (every opened or newly recorded
path has a false exclusion match). -/
theorem run_exclusion_overrides_inclusion
    (H : List Nat → Nat) (fs : Fs) (excl incl : RegexFlag) (root : String)
    (fuel : Nat) (cat : Catalog) :
    (∀ p ∈ (Run H fs excl incl root fuel cat).2.1, excl.Match p = false) ∧
    (∀ r ∈ (Run H fs excl incl root fuel cat).1.records,
        r ∈ cat.records ∨ excl.Match r.path = false) := by
  unfold Run
  rcases hstat : fs.stat root with e | rootInfo
  · exact ⟨fun p hp => absurd hp (List.not_mem_nil p), fun r hr => Or.inl hr⟩
  · by_cases hdir : rootInfo.isDir = true
    · simp only [hdir, Bool.not_true, Bool.false_eq_true, if_false]
      have hq : ∀ it ∈ [(⟨rootInfo, pathDir root⟩ : WalkerContext)],
          it.Info.isDir = true ∨ excl.Match (pathOf it) = false := by
        intro it hit
        rw [List.mem_singleton] at hit
        subst hit
        exact Or.inl hdir
      have hinv := runLoop_excl_inv H fs excl incl
        (EnsureRootId cat root).2 fuel
        [⟨rootInfo, pathDir root⟩] (EnsureRootId cat root).1 [] hq
      refine ⟨?_, ?_⟩
      · intro p hp
        rcases hinv.1 p hp with h | h
        · exact absurd h (List.not_mem_nil p)
        · exact h
      · intro r hr
        rcases hinv.2 r hr with h | h
        · rw [ensureRootId_records] at h
          exact Or.inl h
        · exact Or.inr h
    · have hdir' : rootInfo.isDir = false := by
        revert hdir; cases rootInfo.isDir <;> simp
      simp only [hdir', Bool.not_false, if_true]
      exact ⟨fun p hp => absurd hp (List.not_mem_nil p), fun r hr => Or.inl hr⟩

theorem run_exclusion_overrides_inclusion_witness :
    "/r/a.txt" ∈ (Run Hx fs0 excl0 incl0 "/r" 10 cat0).2.1 ∧
    RegexFlag.Match excl0 "/r/a.txt" = false := by
  refine ⟨by decide, ?_⟩
  exact (run_exclusion_overrides_inclusion Hx fs0 excl0 incl0 "/r" 10 cat0).1
    "/r/a.txt" (by decide)

/-! Path algebra: separators, name validity, the descendant relation. -/

theorem append_sep_cases (m1 : List Char) (hm : '/' ∉ m1) :
    ∀ (l1 l2 s : List Char), l1 ++ '/' :: m1 = l2 ++ '/' :: s →
      l1 = l2 ∨ ∃ t, l1 = l2 ++ '/' :: t := by
  intro l1
  induction l1 with
  | nil =>
    intro l2 s h
    cases l2 with
    | nil => exact Or.inl rfl
    | cons b t2 =>
      simp only [List.nil_append, List.cons_append] at h
      injection h with h1 h2
      exfalso
      apply hm
      rw [h2]
      exact List.mem_append_right _ (List.mem_cons_self _ _)
  | cons a t ih =>
    intro l2 s h
    cases l2 with
    | nil =>
      simp only [List.nil_append, List.cons_append] at h
      injection h with h1 h2
      exact Or.inr ⟨t, by rw [h1]; rfl⟩
    | cons b t2 =>
      simp only [List.cons_append] at h
      injection h with h1 h2
      rcases ih t2 s h2 with h3 | ⟨u, hu⟩
      · exact Or.inl (by rw [h1, h3])
      · refine Or.inr ⟨u, ?_⟩
        rw [h1, hu, List.cons_append]

theorem pathJoin_data (a b : String) (ha0 : a ≠ "") (ha1 : a ≠ "/")
    (hb : b ≠ "") : (pathJoin a b).data = a.data ++ '/' :: b.data := by
  unfold pathJoin
  rw [if_neg ha0, if_neg hb, if_neg ha1]
  rw [String.data_append, String.data_append]
  have hs : ("/" : String).data = ['/'] := rfl
  rw [hs, List.append_assoc]
  rfl

theorem validNameB_ne_empty {n : String} (h : validNameB n = true) :
    n ≠ "" := by
  intro he
  subst he
  simp [validNameB] at h

theorem validNameB_no_sep {n : String} (h : validNameB n = true) :
    '/' ∉ n.data := by
  intro hmem
  unfold validNameB at h
  simp only [Bool.and_eq_true] at h
  have := List.all_eq_true.mp h.1.1.2 '/' hmem
  simp at this

theorem lookup_mem {β : Type} :
    ∀ (l : List (String × β)) (a : String) (b : β),
      l.lookup a = some b → (a, b) ∈ l := by
  intro l
  induction l with
  | nil => intro a b h; exact absurd h (by simp [List.lookup])
  | cons e t ih =>
    intro a b h
    obtain ⟨k, v⟩ := e
    cases hk : (a == k) with
    | true =>
      simp only [List.lookup, hk] at h
      injection h with hv
      subst hv
      have hka : a = k := eq_of_beq hk
      subst hka
      exact List.mem_cons_self _ _
    | false =>
      simp only [List.lookup, hk] at h
      exact List.mem_cons_of_mem _ (ih a b h)

theorem readDir_validNames (fs : Fs) (hwf : fs.wfNames = true)
    (p : String) (infos : List FileInfo)
    (hr : fs.readDir p = Except.ok infos) :
    ∀ i ∈ infos, validNameB i.name = true := by
  unfold Fs.readDir at hr
  rcases hl : fs.dirs.lookup p with _ | r
  · rw [hl] at hr
    exact absurd hr (by simp)
  · rw [hl] at hr
    simp only [Option.getD] at hr
    subst hr
    have hmem := lookup_mem fs.dirs p _ hl
    unfold Fs.wfNames at hwf
    have hd := List.all_eq_true.mp hwf _ hmem
    unfold dirListOk at hd
    exact List.all_eq_true.mp hd

theorem pathJoin_not_underEq (D c name : String)
    (hvn : validNameB name = true) (hc : ¬ underEq D c)
    (hne : pathJoin c name ≠ D) : ¬ underEq D (pathJoin c name) := by
  have hnb : name ≠ "" := validNameB_ne_empty hvn
  have hns : '/' ∉ name.data := validNameB_no_sep hvn
  intro h
  rcases h with h | ⟨suf, hsuf⟩
  · exact hne h
  · by_cases hc0 : c = ""
    · subst hc0
      have hpj : pathJoin "" name = name := by
        unfold pathJoin
        rw [if_pos rfl]
      rw [hpj] at hsuf
      apply hns
      rw [hsuf]
      exact List.mem_append_right _ (List.mem_cons_self _ _)
    · by_cases hc1 : c = "/"
      · subst hc1
        have hpj : (pathJoin "/" name).data = '/' :: name.data := by
          unfold pathJoin
          rw [if_neg (by decide : ¬ ("/" : String) = ""), if_neg hnb,
              if_pos rfl, String.data_append]
          rfl
        rw [hpj] at hsuf
        cases hD : D.data with
        | nil =>
          exact hc (Or.inr ⟨[], by rw [hD]; rfl⟩)
        | cons d ds =>
          rw [hD, List.cons_append] at hsuf
          injection hsuf with h1 h2
          apply hns
          rw [h2]
          exact List.mem_append_right _ (List.mem_cons_self _ _)
      · rw [pathJoin_data c name hc0 hc1 hnb] at hsuf
        rcases append_sep_cases name.data hns c.data D.data suf hsuf
          with h | ⟨t, ht⟩
        · exact hc (Or.inl (String.ext h))
        · exact hc (Or.inr ⟨t, ht⟩)

theorem underEq_ne_special (root c : String) (hroot0 : root ≠ "")
    (hroot1 : root ≠ "/") (hc : underEq root c) : c ≠ "" ∧ c ≠ "/" := by
  rcases hc with h | ⟨suf, hs⟩
  · subst h
    exact ⟨hroot0, hroot1⟩
  · have hr : root.data.length ≠ 0 := by
      intro h0
      apply hroot0
      apply String.ext
      rw [List.length_eq_zero.mp h0]
    have hlen := congrArg List.length hs
    rw [List.length_append, List.length_cons] at hlen
    have hclen : 2 ≤ c.data.length := by omega
    refine ⟨fun h0 => ?_, fun h1 => ?_⟩
    · rw [h0] at hclen
      exact absurd hclen (by decide)
    · rw [h1] at hclen
      exact absurd hclen (by decide)

theorem strictlyUnder_pathJoin (root c name : String)
    (hroot0 : root ≠ "") (hroot1 : root ≠ "/")
    (hc : underEq root c) (hvn : validNameB name = true) :
    strictlyUnder root (pathJoin c name) := by
  obtain ⟨hc0, hc1⟩ := underEq_ne_special root c hroot0 hroot1 hc
  have hnb := validNameB_ne_empty hvn
  have hdata := pathJoin_data c name hc0 hc1 hnb
  rcases hc with h | ⟨suf, hs⟩
  · subst h
    exact ⟨name.data, hdata⟩
  · refine ⟨suf ++ '/' :: name.data, ?_⟩
    rw [hdata, hs, List.append_assoc]
    rfl

theorem strictlyUnder_ne (root p : String) (h : strictlyUnder root p) :
    p ≠ root := by
  rcases h with ⟨suf, hs⟩
  intro he
  subst he
  have := congrArg List.length hs
  rw [List.length_append, List.length_cons] at this
  omega

/-- Walk-loop invariant for subtree pruning: if the exclusion set matches
D and no queued item is at or below D, then nothing at or below D is ever
opened for hashing or recorded. -/
theorem runLoop_prunes
    (H : List Nat → Nat) (fs : Fs) (excl incl : RegexFlag) (rootId : Int)
    (D : String) (hwf : fs.wfNames = true) (hD : excl.Match D = true) :
    ∀ (fuel : Nat) (q : List WalkerContext) (cat : Catalog)
      (opened : List String),
      (∀ it ∈ q, ¬ underEq D (pathOf it)) →
      (∀ p ∈ (runLoop H fs excl incl rootId fuel cat opened q).2.1,
          p ∈ opened ∨ ¬ underEq D p) ∧
      (∀ r ∈ (runLoop H fs excl incl rootId fuel cat opened q).1.records,
          r ∈ cat.records ∨ ¬ underEq D r.path) := by
  intro fuel
  induction fuel with
  | zero =>
    intro q cat opened hq
    exact ⟨fun p hp => Or.inl hp, fun r hr => Or.inl hr⟩
  | succ fuel ih =>
    intro q cat opened hq
    cases q with
    | nil => exact ⟨fun p hp => Or.inl hp, fun r hr => Or.inl hr⟩
    | cons cur rest =>
      have hrest : ∀ it ∈ rest, ¬ underEq D (pathOf it) :=
        fun it hit => hq it (List.mem_cons_of_mem _ hit)
      have hcur : ¬ underEq D (pathOf cur) := hq cur (List.mem_cons_self _ _)
      by_cases hdir : cur.Info.isDir = true
      · rcases hr : fs.readDir (pathJoin cur.Context cur.Info.name)
          with e | infos
        · rw [runLoop_step_dir_err H fs excl incl rootId fuel cat opened
            rest cur e hdir hr]
          exact ⟨fun p hp => Or.inl hp, fun r2 hr2 => Or.inl hr2⟩
        · have hvalid := readDir_validNames fs hwf _ infos hr
          rw [runLoop_step_dir_ok H fs excl incl rootId fuel cat opened
            rest cur infos hdir hr]
          apply ih
          intro it hit
          rcases List.mem_append.mp hit with h | h
          · exact hrest it h
          · rcases List.mem_map.mp h with ⟨info, hinfo, heq⟩
            have hf := (List.mem_filter.mp hinfo).2
            have hMf : excl.Match (pathJoin (pathJoin cur.Context cur.Info.name)
                info.name) = false := by
              simpa using hf
            rw [← heq]
            show ¬ underEq D (pathJoin (pathJoin cur.Context cur.Info.name)
              info.name)
            apply pathJoin_not_underEq D _ info.name
              (hvalid info ((List.mem_filter.mp hinfo).1))
              (show ¬ underEq D (pathJoin cur.Context cur.Info.name) from hcur)
            intro he
            rw [he] at hMf
            rw [hD] at hMf
            exact Bool.true_eq_false.mp hMf
      · have hdir' : cur.Info.isDir = false := by
          revert hdir; cases cur.Info.isDir <;> simp
        by_cases hreg : cur.Info.isRegular = true
        · by_cases hskip : (incl.length > 0 &&
              !(incl.Match (pathJoin cur.Context cur.Info.name))) = true
          · rw [runLoop_step_skip H fs excl incl rootId fuel cat opened
              rest cur hdir' hreg hskip]
            exact ih rest cat opened hrest
          · have hskip' : (incl.length > 0 &&
                !(incl.Match (pathJoin cur.Context cur.Info.name))) = false := by
              revert hskip
              cases incl.length > 0 &&
                !(incl.Match (pathJoin cur.Context cur.Info.name)) <;> simp
            have hspec := hashAndCatalog_spec H fs cat rootId cur
            rcases hh : HashAndCatalog H fs cat rootId cur with ⟨cat2, ops, res⟩
            rw [hh] at hspec
            cases res with
            | error e =>
              rw [runLoop_step_hash_err H fs excl incl rootId fuel cat opened
                rest cur cat2 ops e hdir' hreg hskip' hh]
              refine ⟨?_, ?_⟩
              · intro p hp
                rcases List.mem_append.mp hp with h | h
                · exact Or.inl h
                · right
                  rw [hspec.1 p h]
                  exact hcur
              · intro r2 hr2
                rcases hspec.2 r2 hr2 with h | h
                · exact Or.inl h
                · right; rw [h]; exact hcur
            | ok u =>
              rw [runLoop_step_hash_ok H fs excl incl rootId fuel cat opened
                rest cur cat2 ops u hdir' hreg hskip' hh]
              have hih := ih rest cat2 (opened ++ ops) hrest
              refine ⟨?_, ?_⟩
              · intro p hp
                rcases hih.1 p hp with h | h
                · rcases List.mem_append.mp h with h2 | h2
                  · exact Or.inl h2
                  · right
                    rw [hspec.1 p h2]
                    exact hcur
                · exact Or.inr h
              · intro r2 hr2
                rcases hih.2 r2 hr2 with h | h
                · rcases hspec.2 r2 h with h2 | h2
                  · exact Or.inl h2
                  · right; rw [h2]; exact hcur
                · exact Or.inr h
        · have hreg' : cur.Info.isRegular = false := by
            revert hreg; cases cur.Info.isRegular <;> simp
          rw [runLoop_step_notreg H fs excl incl rootId fuel cat opened
            rest cur hdir' hreg']
          exact ih rest cat opened hrest

/-- C5 as amended. For every path D matched by the exclusion set such
that the root is not at or below D (in particular every directory
strictly below the root), a run with a well-named filesystem never opens
for hashing, and never records, any file at or below D: the whole
subtree of an excluded directory is pruned. The root itself is exempt
because it is seeded into the queue without an exclusion test. -/
theorem run_excluded_subtree_pruned
    (H : List Nat → Nat) (fs : Fs) (excl incl : RegexFlag) (root : String)
    (fuel : Nat) (cat : Catalog) (D : String)
    (hwf : fs.wfNames = true)
    (hD : excl.Match D = true)
    (hroot : ¬ underEq D root)
    (hstat : ∀ info, fs.stat root = Except.ok info →
        pathJoin (pathDir root) info.name = root) :
    (∀ p ∈ (Run H fs excl incl root fuel cat).2.1, ¬ underEq D p) ∧
    (∀ r ∈ (Run H fs excl incl root fuel cat).1.records,
        r ∈ cat.records ∨ ¬ underEq D r.path) := by
  unfold Run
  rcases hs : fs.stat root with e | rootInfo
  · exact ⟨fun p hp => absurd hp (List.not_mem_nil p), fun r hr => Or.inl hr⟩
  · by_cases hdir : rootInfo.isDir = true
    · simp only [hdir, Bool.not_true, Bool.false_eq_true, if_false]
      have hq : ∀ it ∈ [(⟨rootInfo, pathDir root⟩ : WalkerContext)],
          ¬ underEq D (pathOf it) := by
        intro it hit
        rw [List.mem_singleton] at hit
        subst hit
        show ¬ underEq D (pathJoin (pathDir root) rootInfo.name)
        rw [hstat rootInfo hs]
        exact hroot
      have hinv := runLoop_prunes H fs excl incl
        (EnsureRootId cat root).2 D hwf hD fuel
        [⟨rootInfo, pathDir root⟩] (EnsureRootId cat root).1 [] hq
      refine ⟨?_, ?_⟩
      · intro p hp
        rcases hinv.1 p hp with h | h
        · exact absurd h (List.not_mem_nil p)
        · exact h
      · intro r hr
        rcases hinv.2 r hr with h | h
        · rw [ensureRootId_records] at h
          exact Or.inl h
        · exact Or.inr h
    · have hdir' : rootInfo.isDir = false := by
        revert hdir; cases rootInfo.isDir <;> simp
      simp only [hdir', Bool.not_false, if_true]
      exact ⟨fun p hp => absurd hp (List.not_mem_nil p), fun r hr => Or.inl hr⟩

/-- C5 counterexample to the claim as stated: the root directory /r
matches the exclusion set, yet it is expanded and the file /r/a.txt lying
below it is opened and recorded, because the walker seeds the queue with
the root without testing it. -/
theorem excluded_dir_pruning_fails_at_root :
    RegexFlag.Match exclR "/r" = true ∧
    underEq "/r" "/r/a.txt" ∧
    "/r/a.txt" ∈ (Run Hx fs0 exclR [] "/r" 10 cat0).2.1 ∧
    "/r/a.txt" ∈ ((Run Hx fs0 exclR [] "/r" 10 cat0).1.records.map
      (fun r => r.path)) := by
  refine ⟨by decide, Or.inr ⟨"a.txt".data, by decide⟩, by decide, by decide⟩

theorem run_excluded_subtree_pruned_witness :
    "/r/a.txt" ∈ (Run Hx fs0 excl0 [] "/r" 10 cat0).2.1 ∧
    ¬ underEq "/r/skip" "/r/a.txt" := by
  have hroot : ¬ underEq "/r/skip" "/r" := by
    intro h
    rcases h with h | ⟨suf, hs⟩
    · exact absurd h (by decide)
    · have hlen := congrArg List.length hs
      simp only [List.length_append, List.length_cons, List.length_nil]
        at hlen
      omega
  have hstat : ∀ info, fs0.stat "/r" = Except.ok info →
      pathJoin (pathDir "/r") info.name = "/r" := by
    intro info h
    have h2 : Except.ok rootInfo0 = Except.ok info := h
    injection h2 with h3
    rw [← h3]
    decide
  have hmain := run_excluded_subtree_pruned Hx fs0 excl0 [] "/r" 10 cat0
    "/r/skip" (by decide) (by decide) hroot hstat
  exact ⟨by decide, hmain.1 "/r/a.txt" (by decide)⟩

/-- Walk-loop agreement: two runs whose exclusion and inclusion sets
agree on every path strictly below the root (and whose inclusion sets
are empty together) behave identically on any queue whose items lie
strictly below the root, or are the root directory itself. -/
theorem runLoop_agree
    (H : List Nat → Nat) (fs : Fs) (rootId : Int) (root : String)
    (excl1 excl2 incl1 incl2 : RegexFlag)
    (hroot0 : root ≠ "") (hroot1 : root ≠ "/") (hwf : fs.wfNames = true)
    (hag1 : ∀ p, strictlyUnder root p → excl1.Match p = excl2.Match p)
    (hag2 : ∀ p, strictlyUnder root p → incl1.Match p = incl2.Match p)
    (hag0 : (incl1 = []) ↔ (incl2 = [])) :
    ∀ (fuel : Nat) (q : List WalkerContext) (cat : Catalog)
      (opened : List String),
      (∀ it ∈ q, strictlyUnder root (pathOf it) ∨
        (pathOf it = root ∧ it.Info.isDir = true)) →
      runLoop H fs excl1 incl1 rootId fuel cat opened q =
        runLoop H fs excl2 incl2 rootId fuel cat opened q := by
  intro fuel
  induction fuel with
  | zero => intro q cat opened hq; rfl
  | succ fuel ih =>
    intro q cat opened hq
    cases q with
    | nil => rfl
    | cons cur rest =>
      have hrest : ∀ it ∈ rest, strictlyUnder root (pathOf it) ∨
          (pathOf it = root ∧ it.Info.isDir = true) :=
        fun it hit => hq it (List.mem_cons_of_mem _ hit)
      by_cases hdir : cur.Info.isDir = true
      · rcases hr : fs.readDir (pathJoin cur.Context cur.Info.name)
          with e | infos
        · rw [runLoop_step_dir_err H fs excl1 incl1 rootId fuel cat opened
            rest cur e hdir hr,
            runLoop_step_dir_err H fs excl2 incl2 rootId fuel cat opened
            rest cur e hdir hr]
        · have hvalid := readDir_validNames fs hwf _ infos hr
          have hcur : underEq root (pathJoin cur.Context cur.Info.name) := by
            rcases hq cur (List.mem_cons_self _ _) with h | ⟨h, _⟩
            · exact Or.inr h
            · exact Or.inl h
          have hchild : ∀ info ∈ infos, strictlyUnder root
              (pathJoin (pathJoin cur.Context cur.Info.name) info.name) :=
            fun info hi => strictlyUnder_pathJoin root _ info.name
              hroot0 hroot1 hcur (hvalid info hi)
          have hfilter : infos.filter (fun info =>
              !(excl1.Match (pathJoin (pathJoin cur.Context cur.Info.name)
                info.name))) =
              infos.filter (fun info =>
              !(excl2.Match (pathJoin (pathJoin cur.Context cur.Info.name)
                info.name))) :=
            List.filter_congr (fun info hi => by
              rw [hag1 _ (hchild info hi)])
          rw [runLoop_step_dir_ok H fs excl1 incl1 rootId fuel cat opened
            rest cur infos hdir hr,
            runLoop_step_dir_ok H fs excl2 incl2 rootId fuel cat opened
            rest cur infos hdir hr, hfilter]
          apply ih
          intro it hit
          rcases List.mem_append.mp hit with h | h
          · exact hrest it h
          · rcases List.mem_map.mp h with ⟨info, hinfo, heq⟩
            left
            rw [← heq]
            exact hchild info ((List.mem_filter.mp hinfo).1)
      · have hdir' : cur.Info.isDir = false := by
          revert hdir; cases cur.Info.isDir <;> simp
        have hcurS : strictlyUnder root (pathJoin cur.Context cur.Info.name) := by
          rcases hq cur (List.mem_cons_self _ _) with h | ⟨h, hd⟩
          · exact h
          · rw [hdir'] at hd
            exact absurd hd (by simp)
        have hMeq : incl1.Match (pathJoin cur.Context cur.Info.name) =
            incl2.Match (pathJoin cur.Context cur.Info.name) :=
          hag2 _ hcurS
        have hLeq : (decide (incl1.length > 0)) =
            (decide (incl2.length > 0)) := by
          by_cases h1 : incl1 = []
          · have h2 := hag0.mp h1
            subst h1
            subst h2
            rfl
          · have h2 : incl2 ≠ [] := fun he => h1 (hag0.mpr he)
            rw [decide_eq_true (List.length_pos.mpr h1),
                decide_eq_true (List.length_pos.mpr h2)]
        have hcond : (incl1.length > 0 &&
            !(incl1.Match (pathJoin cur.Context cur.Info.name))) =
            (incl2.length > 0 &&
            !(incl2.Match (pathJoin cur.Context cur.Info.name))) := by
          rw [hMeq]
          exact congrArg (fun b => b &&
            !(incl2.Match (pathJoin cur.Context cur.Info.name))) hLeq
        by_cases hreg : cur.Info.isRegular = true
        · by_cases hskip : (incl1.length > 0 &&
              !(incl1.Match (pathJoin cur.Context cur.Info.name))) = true
          · have hskip2 := hcond ▸ hskip
            rw [runLoop_step_skip H fs excl1 incl1 rootId fuel cat opened
              rest cur hdir' hreg hskip,
              runLoop_step_skip H fs excl2 incl2 rootId fuel cat opened
              rest cur hdir' hreg hskip2]
            exact ih rest cat opened hrest
          · have hskip' : (incl1.length > 0 &&
                !(incl1.Match (pathJoin cur.Context cur.Info.name))) = false := by
              revert hskip
              cases incl1.length > 0 &&
                !(incl1.Match (pathJoin cur.Context cur.Info.name)) <;> simp
            have hskip2 : (incl2.length > 0 &&
                !(incl2.Match (pathJoin cur.Context cur.Info.name))) = false :=
              hcond ▸ hskip'
            rcases hh : HashAndCatalog H fs cat rootId cur with ⟨cat2, ops, res⟩
            cases res with
            | error e =>
              rw [runLoop_step_hash_err H fs excl1 incl1 rootId fuel cat opened
                rest cur cat2 ops e hdir' hreg hskip' hh,
                runLoop_step_hash_err H fs excl2 incl2 rootId fuel cat opened
                rest cur cat2 ops e hdir' hreg hskip2 hh]
            | ok u =>
              rw [runLoop_step_hash_ok H fs excl1 incl1 rootId fuel cat opened
                rest cur cat2 ops u hdir' hreg hskip' hh,
                runLoop_step_hash_ok H fs excl2 incl2 rootId fuel cat opened
                rest cur cat2 ops u hdir' hreg hskip2 hh]
              exact ih rest cat2 (opened ++ ops) hrest
        · have hreg' : cur.Info.isRegular = false := by
            revert hreg; cases cur.Info.isRegular <;> simp
          rw [runLoop_step_notreg H fs excl1 incl1 rootId fuel cat opened
            rest cur hdir' hreg',
            runLoop_step_notreg H fs excl2 incl2 rootId fuel cat opened
            rest cur hdir' hreg']
          exact ih rest cat opened hrest

/-- C10. The root is never tested against the exclusion or inclusion
patterns: two runs from the same root whose exclusion and inclusion sets
agree on every path strictly below the root (and are empty together)
produce identical results, whatever either set says about the root
itself. In particular a root matching an exclusion pattern is still
expanded and its qualifying descendants are still fingerprinted, exactly
as with no exclusion at all. -/
theorem run_root_not_filtered
    (H : List Nat → Nat) (fs : Fs) (excl1 excl2 incl1 incl2 : RegexFlag)
    (root : String) (fuel : Nat) (cat : Catalog)
    (hroot0 : root ≠ "") (hroot1 : root ≠ "/") (hwf : fs.wfNames = true)
    (hstat : ∀ info, fs.stat root = Except.ok info →
        pathJoin (pathDir root) info.name = root)
    (hag1 : ∀ p, strictlyUnder root p → excl1.Match p = excl2.Match p)
    (hag2 : ∀ p, strictlyUnder root p → incl1.Match p = incl2.Match p)
    (hag0 : (incl1 = []) ↔ (incl2 = [])) :
    Run H fs excl1 incl1 root fuel cat = Run H fs excl2 incl2 root fuel cat := by
  unfold Run
  rcases hs : fs.stat root with e | rootInfo
  · rfl
  · by_cases hdir : rootInfo.isDir = true
    · simp only [hdir, Bool.not_true, Bool.false_eq_true, if_false]
      apply runLoop_agree H fs (EnsureRootId cat root).2 root
        excl1 excl2 incl1 incl2 hroot0 hroot1 hwf hag1 hag2 hag0
      intro it hit
      rw [List.mem_singleton] at hit
      subst hit
      right
      exact ⟨hstat rootInfo hs, hdir⟩
    · have hdir' : rootInfo.isDir = false := by
        revert hdir; cases rootInfo.isDir <;> simp
      simp only [hdir', Bool.not_false, if_true]

theorem run_root_not_filtered_witness :
    RegexFlag.Match exclR "/r" = true ∧
    Run Hx fs0 exclR [] "/r" 10 cat0 = Run Hx fs0 [] [] "/r" 10 cat0 := by
  refine ⟨by decide, ?_⟩
  have hstat : ∀ info, fs0.stat "/r" = Except.ok info →
      pathJoin (pathDir "/r") info.name = "/r" := by
    intro info h
    have h2 : Except.ok rootInfo0 = Except.ok info := h
    injection h2 with h3
    rw [← h3]
    decide
  have hag1 : ∀ p, strictlyUnder "/r" p →
      RegexFlag.Match exclR p = RegexFlag.Match [] p := by
    intro p hp
    have hne : p ≠ "/r" := strictlyUnder_ne "/r" p hp
    show (exclR.any (fun re => re p)) = ([] : RegexFlag).any (fun re => re p)
    simp [exclR, hne]
  exact run_root_not_filtered Hx fs0 exclR [] [] [] "/r" 10 cat0
    (by decide) (by decide) (by decide) hstat hag1
    (fun p _ => rfl) Iff.rfl
